import Mathlib

/-!
Shallow embedding of the stockspotlight core components:
the TTL cache (internal/cache/cache.go), the Finnhub rate limiter
(finnhub_limiter), and the log rotation system
(internal/logger/rotation_system.go, internal/logger/logger.go).

Time instants and durations are modelled as `Int` (Go `time.Time` /
`time.Duration` are nanosecond counts); `time.Since t` at instant `now`
is `now - t`.
-/

namespace StockSpotlight

/-! ### TTL cache (internal/cache/cache.go) -/

/-- One entry of the cache map: `cacheEntry{data, timestamp, ttl}`. -/
structure cacheEntry (α : Type) where
  data : α
  timestamp : Int
  ttl : Int
deriving DecidableEq

/-- The cache's `map[string]cacheEntry` field, as a partial map. -/
def Cache (α : Type) : Type := String → Option (cacheEntry α)

/-- `Set` adds or updates a cache entry; `timestamp` is `time.Now()`
at the moment of the call. -/
def Cache.set {α : Type} (c : Cache α) (key : String) (value : α)
    (now ttl : Int) : Cache α :=
  fun k => if k = key then some ⟨value, now, ttl⟩ else c k

/-- `Get` retrieves a value if not expired, deleting the entry when
`time.Since(entry.timestamp) > entry.ttl`.  Returns the Go result pair
`(interface{}, bool)` together with the cache map after the call. -/
def Cache.get {α : Type} (c : Cache α) (key : String) (now : Int) :
    (Option α × Bool) × Cache α :=
  match c key with
  | none => ((none, false), c)
  | some entry =>
    if now - entry.timestamp > entry.ttl then
      ((none, false), fun k => if k = key then none else c k)
    else
      ((some entry.data, true), c)

/-- `Delete` removes a key unconditionally (Go `delete` on a map). -/
def Cache.delete {α : Type} (c : Cache α) (key : String) : Cache α :=
  fun k => if k = key then none else c k

/-! ### Lock discipline of the cache operations

Each operation is embedded as the sequence of lock events and map
accesses it performs, read off the source line by line. -/

/-- Events on the cache's `sync.RWMutex` and on its map. -/
inductive CacheEvent where
  | rLock
  | rUnlock
  | lock
  | unlock
  | mapRead (key : String)
  | mapWrite (key : String)
deriving DecidableEq

/-- `Set`: `mu.Lock(); c.data[key] = ...; mu.Unlock()` (deferred). -/
def setEvents (key : String) : List CacheEvent :=
  [CacheEvent.lock, CacheEvent.mapWrite key, CacheEvent.unlock]

/-- `Delete`: `mu.Lock(); delete(c.data, key); mu.Unlock()` (deferred). -/
def deleteEvents (key : String) : List CacheEvent :=
  [CacheEvent.lock, CacheEvent.mapWrite key, CacheEvent.unlock]

/-- `Get`: `mu.RLock()`, map lookup, a `delete` when the entry is
expired, then `mu.RUnlock()` (deferred). -/
def getEvents {α : Type} (c : Cache α) (key : String) (now : Int) :
    List CacheEvent :=
  [CacheEvent.rLock, CacheEvent.mapRead key] ++
    (match c key with
     | none => []
     | some entry =>
       if now - entry.timestamp > entry.ttl then [CacheEvent.mapWrite key]
       else []) ++
    [CacheEvent.rUnlock]

/-- Checks that every `mapWrite` in the trace happens while the
exclusive (writer) lock is held. -/
def writesExclusiveFrom (exclusive : Bool) : List CacheEvent → Bool
  | [] => true
  | CacheEvent.lock :: es => writesExclusiveFrom true es
  | CacheEvent.unlock :: es => writesExclusiveFrom false es
  | CacheEvent.rLock :: es => writesExclusiveFrom exclusive es
  | CacheEvent.rUnlock :: es => writesExclusiveFrom exclusive es
  | CacheEvent.mapRead _ :: es => writesExclusiveFrom exclusive es
  | CacheEvent.mapWrite _ :: es => exclusive && writesExclusiveFrom exclusive es

/-- Lock-discipline check starting with no lock held. -/
def writesExclusive (es : List CacheEvent) : Bool :=
  writesExclusiveFrom false es

/-! ### Rate limiter (finnhub_limiter) -/

/-- The limiter state: `lastRequest` and `interval`. -/
structure Limiter where
  lastRequest : Int
  interval : Int
deriving DecidableEq

/-- The sleep duration executed by `Wait` at instant `now`:
`interval - elapsed` when `elapsed < interval`, else no sleep. -/
def waitSleep (l : Limiter) (now : Int) : Int :=
  let elapsed := now - l.lastRequest
  if elapsed < l.interval then l.interval - elapsed else 0

/-- `Wait` at instant `now`: sleeps `waitSleep l now`, then sets
`lastRequest = time.Now()`.  Returns the instant at which the call
returns together with the new state. -/
def Limiter.wait (l : Limiter) (now : Int) : Int × Limiter :=
  let s := waitSleep l now
  (now + s, { l with lastRequest := now + s })

/-- A sequence of `Wait` calls, each entering the critical section at
the given instant; returns the list of return instants. -/
def runWaits : Limiter → List Int → List Int × Limiter
  | l, [] => ([], l)
  | l, t :: ts =>
    let r := Limiter.wait l t
    let rest := runWaits r.2 ts
    (r.1 :: rest.1, rest.2)

/-- The calls are serialized by the limiter's mutex: each call measures
`time.Since` no earlier than the previous call's return (which set
`lastRequest`). -/
def arrivalsSerialized : Limiter → List Int → Prop
  | _, [] => True
  | l, t :: ts => l.lastRequest ≤ t ∧ arrivalsSerialized (Limiter.wait l t).2 ts

instance arrivalsSerializedDec : ∀ (l : Limiter) (ts : List Int),
    Decidable (arrivalsSerialized l ts)
  | _, [] => by unfold arrivalsSerialized; infer_instance
  | l, t :: ts => by
    unfold arrivalsSerialized
    have : Decidable (arrivalsSerialized (Limiter.wait l t).2 ts) :=
      arrivalsSerializedDec (Limiter.wait l t).2 ts
    exact instDecidableAnd

/-! ### Log rotator (internal/logger/rotation_system.go) -/

/-- `MaxLogFileSize = 10 * 1024 * 1024` (bytes). -/
def MaxLogFileSize : Int := 10 * 1024 * 1024

/-- `MaxLogAge = 5 * 24 * time.Hour` (nanoseconds). -/
def MaxLogAge : Int := 5 * 24 * 3600 * 1000000000

/-- `MaxLogFiles = 10`. -/
def MaxLogFiles : Nat := 10

/-- The `LogRotator` struct. -/
structure LogRotator where
  logFilePath : String
  maxSize : Int
  maxAge : Int
  maxFiles : Nat
deriving DecidableEq

/-- `NewLogRotator`. -/
def NewLogRotator (logFilePath : String) : LogRotator :=
  ⟨logFilePath, MaxLogFileSize, MaxLogAge, MaxLogFiles⟩

/-- Outcome of `os.Stat` on the active log file. -/
inductive StatResult where
  | notExist
  | statError (msg : String)
  | found (size : Int) (modTime : Int)
deriving DecidableEq

/-- `ShouldRotate`: stat the active file; absence is not an error,
other stat errors propagate; otherwise compare size and age against
the thresholds. -/
def ShouldRotate (lr : LogRotator) (now : Int) (st : StatResult) :
    Except String Bool :=
  match st with
  | StatResult.notExist => Except.ok false
  | StatResult.statError msg => Except.error msg
  | StatResult.found size modTime =>
    if size ≥ lr.maxSize then Except.ok true
    else if now - modTime ≥ lr.maxAge then Except.ok true
    else Except.ok false

/-- A `filepath.Dir` model for slash-separated paths. -/
def dirOf (p : String) : String :=
  let parts := p.splitOn "/"
  if parts.length ≤ 1 then "." else String.intercalate "/" parts.dropLast

/-- Timestamp rendering (`time.Now().Format(...)`), kept injective on
instants: distinct instants give distinct suffixes. -/
def fmtTimestamp (now : Int) : String := toString now

/-- The rotated name `<logFilePath>.<timestamp>`. -/
def rotatedName (lr : LogRotator) (now : Int) : String :=
  lr.logFilePath ++ "." ++ fmtTimestamp now

/-- The banner line written by `createEmptyLogFile`. -/
def bannerLine (now : Int) : String :=
  "INFO: " ++ fmtTimestamp now ++ " Log file created/rotated\n"

/-- Externally determined outcomes of the file-system calls made by
`RotateLog` (the file system is the environment of the embedding). -/
structure RotateEnv where
  mkdirOk : Bool
  activeExists : Bool
  renameOk : Bool
  createOk : Bool
  bannerOk : Bool
  cleanupOk : Bool
deriving DecidableEq

/-- Successful file-system effects performed during a rotation. -/
inductive FsAction where
  | mkdirAll (dir : String)
  | rename (src dst : String)
  | createFile (path : String) (content : List String)
  | cleanupRun
deriving DecidableEq

/-- `createEmptyLogFile`: `os.Create` then write the banner line.
Returns the Go error result and the effects performed. -/
def createEmptyLogFile (lr : LogRotator) (now : Int) (env : RotateEnv) :
    Except String Unit × List FsAction :=
  if env.createOk then
    if env.bannerOk then
      (Except.ok (), [FsAction.createFile lr.logFilePath [bannerLine now]])
    else
      (Except.error "banner write failed",
        [FsAction.createFile lr.logFilePath []])
  else
    (Except.error "create failed", [])

/-- `RotateLog`: ensure the directory, stat the active file, rename it
to its timestamped name, create the fresh active file, then run
cleanup (whose failure is only printed). -/
def RotateLog (lr : LogRotator) (now : Int) (env : RotateEnv) :
    Except String Unit × List FsAction :=
  if ¬ env.mkdirOk then
    (Except.error "failed to create log directory", [])
  else if ¬ env.activeExists then
    let r := createEmptyLogFile lr now env
    (r.1, FsAction.mkdirAll (dirOf lr.logFilePath) :: r.2)
  else if ¬ env.renameOk then
    (Except.error "failed to rotate log file",
      [FsAction.mkdirAll (dirOf lr.logFilePath)])
  else
    let r := createEmptyLogFile lr now env
    match r.1 with
    | Except.error e =>
      (Except.error ("failed to create new log file after rotation: " ++ e),
        FsAction.mkdirAll (dirOf lr.logFilePath)
          :: FsAction.rename lr.logFilePath (rotatedName lr now) :: r.2)
    | Except.ok _ =>
      (Except.ok (),
        (FsAction.mkdirAll (dirOf lr.logFilePath)
          :: FsAction.rename lr.logFilePath (rotatedName lr now) :: r.2)
          ++ [FsAction.cleanupRun])

/-! ### cleanupOldLogs -/

/-- The `LogFileInfo` struct: path plus the stat data used by cleanup. -/
structure LogFileInfo where
  path : String
  modTime : Int
  size : Int
deriving DecidableEq

/-- Whether the first character list leads the second. -/
def charsLeadWith : List Char → List Char → Bool
  | [], _ => true
  | _ :: _, [] => false
  | a :: as, b :: bs => a == b && charsLeadWith as bs

/-- `filepath.Glob` match against the pattern `<logFilePath>.*`:
the path extends the active path by a dot and any (possibly empty)
suffix. -/
def matchesGlob (base p : String) : Bool :=
  charsLeadWith (base.data ++ ['.']) p.data

/-- The files cleanup considers: glob matches with the active path
itself skipped (the `match == lr.logFilePath` guard). -/
def rotatedCandidates (lr : LogRotator) (dirFiles : List LogFileInfo) :
    List LogFileInfo :=
  (dirFiles.filter fun f => matchesGlob lr.logFilePath f.path).filter
    fun f => f.path != lr.logFilePath

/-- The comparator of `sort.Slice`: `files[i].ModTime.After(files[j].ModTime)`,
i.e. newest first. -/
def newerEq (a b : LogFileInfo) : Prop := b.modTime ≤ a.modTime

instance : DecidableRel newerEq := fun a b => by
  unfold newerEq; infer_instance

instance : IsTotal LogFileInfo newerEq :=
  ⟨fun a b => le_total b.modTime a.modTime⟩

instance : IsTrans LogFileInfo newerEq :=
  ⟨fun _ _ _ h1 h2 => le_trans h2 h1⟩

/-- Sorting by modification time, newest first.  `sort.Slice` is not
stable, but on pairwise-distinct modification times any comparison
sort computes this list. -/
def sortByModTimeDesc (l : List LogFileInfo) : List LogFileInfo :=
  l.insertionSort newerEq

/-- The deletion loop of `cleanupOldLogs`: starting at index `i`,
delete a file when it is older than the cutoff or its index is at
least `maxFiles`.  Returns the deleted files in order. -/
def deleteLoop (maxFiles : Nat) (cutoff : Int) :
    Nat → List LogFileInfo → List LogFileInfo
  | _, [] => []
  | i, f :: fs =>
    if f.modTime < cutoff ∨ maxFiles ≤ i then
      f :: deleteLoop maxFiles cutoff (i + 1) fs
    else
      deleteLoop maxFiles cutoff (i + 1) fs

/-- `cleanupOldLogs` on the directory listing `dirFiles`: the list of
files it removes. -/
def cleanupDeleted (lr : LogRotator) (now : Int)
    (dirFiles : List LogFileInfo) : List LogFileInfo :=
  deleteLoop lr.maxFiles (now - lr.maxAge) 0
    (sortByModTimeDesc (rotatedCandidates lr dirFiles))

/-! ### Logger (internal/logger/logger.go) -/

/-- Steps taken by the Logger during `rotateNow` / `ForceRotate`. -/
inductive LoggerAction where
  | logInfo (msg : String)
  | closeFile
  | rotateAttempt
  | reopenFile
  | logStats
deriving DecidableEq

/-- `rotateNow`: close the file, call `RotateLog`; on failure fall
back to reopening, on success reopen and log. -/
def rotateNow (rotateResult : Except String Unit) : List LoggerAction :=
  LoggerAction.closeFile :: LoggerAction.rotateAttempt ::
    (match rotateResult with
     | Except.error _ => [LoggerAction.reopenFile]
     | Except.ok _ =>
       [LoggerAction.reopenFile, LoggerAction.logInfo "Log rotation completed",
        LoggerAction.logStats])

/-- `Logger.ForceRotate`: log the request, run `rotateNow`, return
`nil`.  The first component is the Go `error` result. -/
def ForceRotate (rotateResult : Except String Unit) :
    Option String × List LoggerAction :=
  (none, LoggerAction.logInfo "Manual log rotation requested"
    :: rotateNow rotateResult)

/-! ### Concrete retention scenario (maxFiles = 2, maxFiles + 3 = 5
rotated files, all younger than maxAge, distinct timestamps) -/

/-- A rotator with small thresholds for the retention scenario. -/
def retentionRotW : LogRotator := ⟨"logs/app.log", 10, 100, 2⟩

/-- Directory listing for the retention scenario: the active file and
five rotated siblings with distinct modification times. -/
def retentionFilesW : List LogFileInfo :=
  [⟨"logs/app.log", 999, 5⟩,
   ⟨"logs/app.log.1", 903, 1⟩,
   ⟨"logs/app.log.2", 901, 1⟩,
   ⟨"logs/app.log.3", 905, 1⟩,
   ⟨"logs/app.log.4", 902, 1⟩,
   ⟨"logs/app.log.5", 904, 1⟩]

/-! ## Supporting lemmas -/

/-- Unfolding of the sleep computation. -/
theorem waitSleep_eq (l : Limiter) (now : Int) :
    waitSleep l now =
      if now - l.lastRequest < l.interval then l.interval - (now - l.lastRequest)
      else 0 := rfl

/-- The sleep of `Wait` is never negative. -/
theorem waitSleep_nonneg (l : Limiter) (now : Int) : 0 ≤ waitSleep l now := by
  rw [waitSleep_eq]
  split <;> omega

/-- After `Wait`, `lastRequest` is the return instant. -/
theorem wait_lastRequest (l : Limiter) (now : Int) :
    (Limiter.wait l now).2.lastRequest = now + waitSleep l now := rfl

/-- `Wait` preserves the interval. -/
theorem wait_interval (l : Limiter) (now : Int) :
    (Limiter.wait l now).2.interval = l.interval := rfl

/-- One serialized `Wait` advances `lastRequest` by at least the
interval. -/
theorem wait_spacing_step (l : Limiter) (now : Int) (h : l.lastRequest ≤ now) :
    l.lastRequest + l.interval ≤ (Limiter.wait l now).2.lastRequest := by
  rw [wait_lastRequest, waitSleep_eq]
  split <;> omega

/-- Return instants of a serialized sequence of `Wait` calls are
spaced at least `interval` apart, starting from `lastRequest`. -/
theorem runWaits_chain (ts : List Int) (l : Limiter)
    (h : arrivalsSerialized l ts) :
    List.Chain (fun a b => a + l.interval ≤ b) l.lastRequest (runWaits l ts).1 := by
  induction ts generalizing l with
  | nil => exact List.Chain.nil
  | cons t ts ih =>
    obtain ⟨h1, h2⟩ := h
    refine List.Chain.cons ?_ ?_
    · have := wait_spacing_step l t h1
      rw [wait_lastRequest] at this
      simpa [runWaits, Limiter.wait] using this
    · have hrec := ih (Limiter.wait l t).2 h2
      rw [wait_interval] at hrec
      have hlast : (Limiter.wait l t).2.lastRequest = (Limiter.wait l t).1 := rfl
      rw [hlast] at hrec
      simpa [runWaits] using hrec

/-! ## Claims -/

/-- C1: a `Get` whose elapsed time is exactly the ttl is a hit
(expiry is strict greater-than); once elapsed strictly exceeds the
ttl, `Get` misses, removes the entry from the map, and any later
`Get` of the same key (without a `Set`) also misses. -/
theorem cache_get_ttl_expiry {α : Type} (c : Cache α) (k : String)
    (e : cacheEntry α) (now : Int) (hk : c k = some e) :
    (now - e.timestamp = e.ttl →
      (Cache.get c k now).1 = (some e.data, true)) ∧
    (e.ttl < now - e.timestamp →
      (Cache.get c k now).1 = (none, false) ∧
      (Cache.get c k now).2 k = none ∧
      ∀ later : Int,
        (Cache.get ((Cache.get c k now).2) k later).1 = (none, false)) := by
  constructor
  · intro hb
    have hlt : ¬ now - e.timestamp > e.ttl := by omega
    simp [Cache.get, hk, hlt]
  · intro hb
    have hgt : now - e.timestamp > e.ttl := by omega
    refine ⟨?_, ?_, ?_⟩
    · simp [Cache.get, hk, hgt]
    · simp [Cache.get, hk, hgt]
    · intro later
      simp [Cache.get, hk, hgt]

/-- C1 witness at concrete inputs. -/
theorem cache_get_ttl_expiry_witness :
    ((10 : Int) - 0 = 10 →
      (Cache.get (fun s => if s = "a" then some (⟨5, 0, 10⟩ : cacheEntry Nat) else none) "a" 10).1 = (some 5, true)) ∧
    ((10 : Int) < 11 - 0 →
      (Cache.get (fun s => if s = "a" then some (⟨5, 0, 10⟩ : cacheEntry Nat) else none) "a" 11).1 = (none, false) ∧
      (Cache.get (fun s => if s = "a" then some (⟨5, 0, 10⟩ : cacheEntry Nat) else none) "a" 11).2 "a" = none ∧
      ∀ later : Int,
        (Cache.get ((Cache.get (fun s => if s = "a" then some (⟨5, 0, 10⟩ : cacheEntry Nat) else none) "a" 11).2) "a" later).1 = (none, false)) := by
  constructor
  · exact (cache_get_ttl_expiry
      (fun s => if s = "a" then some (⟨5, 0, 10⟩ : cacheEntry Nat) else none)
      "a" ⟨5, 0, 10⟩ 10 (by simp)).1
  · exact (cache_get_ttl_expiry
      (fun s => if s = "a" then some (⟨5, 0, 10⟩ : cacheEntry Nat) else none)
      "a" ⟨5, 0, 10⟩ 11 (by simp)).2

/-- C8: `Set(k, v, ttl)` with `ttl ≥ 0` followed by `Get(k)` with no
more than `ttl` time elapsed returns `(v, true)`. -/
theorem cache_set_then_get {α : Type} (c : Cache α) (k : String) (v : α)
    (t ttl now : Int) (httl : 0 ≤ ttl) (helapsed : now - t ≤ ttl) :
    (Cache.get (Cache.set c k v t ttl) k now).1 = (some v, true) := by
  have hlt : ¬ now - t > ttl := by omega
  simp [Cache.get, Cache.set, hlt]

/-- C8 witness at concrete inputs. -/
theorem cache_set_then_get_witness :
    (Cache.get (Cache.set (fun _ => none) "k" (7 : Nat) 2 5) "k" 2).1 = (some 7, true) :=
  cache_set_then_get (fun _ => none) "k" 7 2 5 2 (by decide) (by decide)

/-- C9: `Set` on key `a` leaves the entry stored under a distinct key
`b` (value, timestamp and ttl) unchanged, and `Delete` of an absent
key leaves the whole cache map unchanged. -/
theorem cache_set_delete_frame {α : Type} (c : Cache α) (a b k : String)
    (v : α) (t ttl : Int) (hab : a ≠ b) (hk : c k = none) :
    Cache.set c a v t ttl b = c b ∧ Cache.delete c k = c := by
  constructor
  · have hba : ¬ b = a := fun h => hab h.symm
    simp [Cache.set, hba]
  · funext k'
    by_cases h : k' = k
    · subst h
      simp [Cache.delete, hk]
    · simp [Cache.delete, h]

/-- C9 witness at concrete inputs. -/
theorem cache_set_delete_frame_witness :
    Cache.set (fun s => if s = "b" then some (⟨3, 0, 9⟩ : cacheEntry Nat) else none) "a" 8 1 4 "b"
      = (fun s => if s = "b" then some (⟨3, 0, 9⟩ : cacheEntry Nat) else none) "b" ∧
    Cache.delete (fun s => if s = "b" then some (⟨3, 0, 9⟩ : cacheEntry Nat) else none) "z"
      = (fun s => if s = "b" then some (⟨3, 0, 9⟩ : cacheEntry Nat) else none) :=
  cache_set_delete_frame
    (fun s => if s = "b" then some (⟨3, 0, 9⟩ : cacheEntry Nat) else none)
    "a" "b" "z" 8 1 4 (by decide) (by simp)

/-- C5 evidence: `Set` and `Delete` write while holding the exclusive
lock, but `Get` of an expired entry performs its map delete while
holding only the shared reader lock — there is no upgrade to
exclusive access in the code. -/
theorem cache_get_expired_writes_under_shared_lock :
    writesExclusive (setEvents "k") = true ∧
    writesExclusive (deleteEvents "k") = true ∧
    writesExclusive
      (getEvents (fun s => if s = "k" then some (⟨0, 0, 1⟩ : cacheEntry Nat) else none) "k" 3)
      = false := by
  refine ⟨rfl, rfl, ?_⟩
  simp [getEvents, writesExclusive, writesExclusiveFrom]

/-- C3: each `Wait` sleeps exactly `max 0 (interval - elapsed)` (never
negative), records the return instant as `lastRequest`, and for every
serialized sequence of completed calls the return instants are spaced
at least `interval` apart. -/
theorem limiter_wait_spacing (l : Limiter) (now : Int) (ts : List Int)
    (hser : arrivalsSerialized l ts) :
    waitSleep l now = max 0 (l.interval - (now - l.lastRequest)) ∧
    0 ≤ waitSleep l now ∧
    (Limiter.wait l now).2.lastRequest = now + waitSleep l now ∧
    (l.lastRequest ≤ now →
      l.lastRequest + l.interval ≤ (Limiter.wait l now).2.lastRequest) ∧
    List.Chain (fun a b => a + l.interval ≤ b) l.lastRequest (runWaits l ts).1 := by
  refine ⟨?_, waitSleep_nonneg l now, wait_lastRequest l now,
    wait_spacing_step l now, runWaits_chain ts l hser⟩
  rw [waitSleep_eq]
  split <;> omega

/-- C3 witness at concrete inputs. -/
theorem limiter_wait_spacing_witness :
    waitSleep ⟨0, 10⟩ 3 = max 0 ((10 : Int) - (3 - 0)) ∧
    0 ≤ waitSleep ⟨0, 10⟩ 3 ∧
    (Limiter.wait ⟨0, 10⟩ 3).2.lastRequest = 3 + waitSleep ⟨0, 10⟩ 3 ∧
    ((0 : Int) ≤ 3 →
      0 + 10 ≤ (Limiter.wait ⟨0, 10⟩ 3).2.lastRequest) ∧
    List.Chain (fun a b => a + (10 : Int) ≤ b) 0 (runWaits ⟨0, 10⟩ [3, 12, 100]).1 :=
  limiter_wait_spacing ⟨0, 10⟩ 3 [3, 12, 100] (by decide)

/-- C4: `ShouldRotate` treats an absent file as not due (no error),
propagates other stat errors, and otherwise reports rotation due iff
size reached `maxSize` or age reached `maxAge`; in particular exactly
`maxSize` bytes is due, `maxSize - 1` bytes with a young file is not. -/
theorem shouldRotate_spec (lr : LogRotator) (now size modTime : Int)
    (msg : String) :
    ShouldRotate lr now StatResult.notExist = Except.ok false ∧
    ShouldRotate lr now (StatResult.statError msg) = Except.error msg ∧
    (ShouldRotate lr now (StatResult.found size modTime) = Except.ok true ↔
      lr.maxSize ≤ size ∨ lr.maxAge ≤ now - modTime) ∧
    (size = lr.maxSize →
      ShouldRotate lr now (StatResult.found size modTime) = Except.ok true) ∧
    (size = lr.maxSize - 1 → now - modTime < lr.maxAge →
      ShouldRotate lr now (StatResult.found size modTime) = Except.ok false) := by
  have hred : ShouldRotate lr now (StatResult.found size modTime) =
      if size ≥ lr.maxSize then Except.ok true
      else if now - modTime ≥ lr.maxAge then Except.ok true
      else Except.ok false := rfl
  refine ⟨rfl, rfl, ?_, ?_, ?_⟩
  · rw [hred]
    split_ifs with h1 h2
    · simp
      left
      exact h1
    · simp
      right
      exact h2
    · simp
      exact ⟨by omega, by omega⟩
  · intro h
    rw [hred, if_pos (le_of_eq h.symm)]
  · intro h1 h2
    rw [hred, if_neg (by omega), if_neg (by omega)]

/-- C4 witness at concrete inputs. -/
theorem shouldRotate_spec_witness :
    ShouldRotate (NewLogRotator "logs/app.log") 50 StatResult.notExist = Except.ok false ∧
    ShouldRotate (NewLogRotator "logs/app.log") 50 (StatResult.statError "denied") = Except.error "denied" ∧
    (ShouldRotate (NewLogRotator "logs/app.log") 50 (StatResult.found 10485760 50) = Except.ok true ↔
      (NewLogRotator "logs/app.log").maxSize ≤ 10485760 ∨
        (NewLogRotator "logs/app.log").maxAge ≤ 50 - 50) ∧
    ((10485760 : Int) = (NewLogRotator "logs/app.log").maxSize →
      ShouldRotate (NewLogRotator "logs/app.log") 50 (StatResult.found 10485760 50) = Except.ok true) ∧
    ((10485760 : Int) = (NewLogRotator "logs/app.log").maxSize - 1 →
      (50 : Int) - 50 < (NewLogRotator "logs/app.log").maxAge →
      ShouldRotate (NewLogRotator "logs/app.log") 50 (StatResult.found 10485760 50) = Except.ok false) :=
  shouldRotate_spec (NewLogRotator "logs/app.log") 50 10485760 50 "denied"

/-- C6: with the active file present, a rename failure makes
`RotateLog` fail and no new active file is created (and cleanup is
not reached); when rename and creation both succeed `RotateLog`
returns success whatever the cleanup outcome. -/
theorem rotateLog_error_policy (lr : LogRotator) (now : Int)
    (env : RotateEnv) (hm : env.mkdirOk = true) (ha : env.activeExists = true) :
    (env.renameOk = false →
      (RotateLog lr now env).1 = Except.error "failed to rotate log file" ∧
      (∀ p c, FsAction.createFile p c ∉ (RotateLog lr now env).2) ∧
      FsAction.cleanupRun ∉ (RotateLog lr now env).2) ∧
    (env.renameOk = true → env.createOk = true → env.bannerOk = true →
      (RotateLog lr now env).1 = Except.ok ()) := by
  constructor
  · intro hr
    refine ⟨?_, ?_, ?_⟩
    · simp [RotateLog, hm, ha, hr]
    · intro p c
      simp [RotateLog, hm, ha, hr]
    · simp [RotateLog, hm, ha, hr]
  · intro hr hc hb
    simp [RotateLog, createEmptyLogFile, hm, ha, hr, hc, hb]

/-- C6 witness at concrete inputs. -/
theorem rotateLog_error_policy_witness :
    ((RotateEnv.mk true true false true true false).renameOk = false →
      (RotateLog (NewLogRotator "logs/app.log") 7 (RotateEnv.mk true true false true true false)).1
          = Except.error "failed to rotate log file" ∧
      (∀ p c, FsAction.createFile p c ∉
        (RotateLog (NewLogRotator "logs/app.log") 7 (RotateEnv.mk true true false true true false)).2) ∧
      FsAction.cleanupRun ∉
        (RotateLog (NewLogRotator "logs/app.log") 7 (RotateEnv.mk true true false true true false)).2) ∧
    ((RotateEnv.mk true true false true true false).renameOk = true →
      (RotateEnv.mk true true false true true false).createOk = true →
      (RotateEnv.mk true true false true true false).bannerOk = true →
      (RotateLog (NewLogRotator "logs/app.log") 7 (RotateEnv.mk true true false true true false)).1
          = Except.ok ()) :=
  rotateLog_error_policy (NewLogRotator "logs/app.log") 7
    (RotateEnv.mk true true false true true false) rfl rfl

/-- C7: `RotateLog` with an absent active file creates exactly one new
active file containing only the banner line — its effect trace is the
directory creation followed by that single file creation, with no
rename and no cleanup. -/
theorem rotateLog_absent_active (lr : LogRotator) (now : Int)
    (env : RotateEnv) (hm : env.mkdirOk = true) (ha : env.activeExists = false)
    (hc : env.createOk = true) (hb : env.bannerOk = true) :
    (RotateLog lr now env).1 = Except.ok () ∧
    (RotateLog lr now env).2 =
      [FsAction.mkdirAll (dirOf lr.logFilePath),
       FsAction.createFile lr.logFilePath [bannerLine now]] := by
  simp [RotateLog, createEmptyLogFile, hm, ha, hc, hb]

/-- C7 witness at concrete inputs. -/
theorem rotateLog_absent_active_witness :
    (RotateLog (NewLogRotator "logs/app.log") 7 (RotateEnv.mk true false true true true true)).1
        = Except.ok () ∧
    (RotateLog (NewLogRotator "logs/app.log") 7 (RotateEnv.mk true false true true true true)).2 =
      [FsAction.mkdirAll (dirOf (NewLogRotator "logs/app.log").logFilePath),
       FsAction.createFile (NewLogRotator "logs/app.log").logFilePath [bannerLine 7]] :=
  rotateLog_absent_active (NewLogRotator "logs/app.log") 7
    (RotateEnv.mk true false true true true true) rfl rfl rfl rfl

/-- C10: `ForceRotate` returns `nil` on every execution, also when the
underlying `RotateLog` failed — the failure is swallowed inside
`rotateNow`, which falls back to reopening the log file. -/
theorem forceRotate_swallows_errors (r : Except String Unit) :
    (ForceRotate r).1 = none ∧ LoggerAction.reopenFile ∈ (ForceRotate r).2 := by
  cases r <;> simp [ForceRotate, rotateNow]

/-- When no file is older than the cutoff, the deletion loop started
at index `i` deletes exactly the tail from position `maxFiles - i`. -/
theorem deleteLoop_no_old (M : Nat) (cutoff : Int) :
    ∀ (l : List LogFileInfo) (i : Nat),
      (∀ f ∈ l, ¬ f.modTime < cutoff) →
      deleteLoop M cutoff i l = l.drop (M - i) := by
  intro l
  induction l with
  | nil => intro i _; simp [deleteLoop]
  | cons f fs ih =>
    intro i h
    have hf : ¬ f.modTime < cutoff := h f (List.mem_cons_self f fs)
    have hfs : ∀ g ∈ fs, ¬ g.modTime < cutoff :=
      fun g hg => h g (List.mem_cons_of_mem f hg)
    by_cases hi : M ≤ i
    · have hcond : f.modTime < cutoff ∨ M ≤ i := Or.inr hi
      have h0 : M - i = 0 := by omega
      have h1 : M - (i + 1) = 0 := by omega
      simp only [deleteLoop, if_pos hcond, ih (i + 1) hfs, h0, h1,
        List.drop_zero]
    · have hcond : ¬ (f.modTime < cutoff ∨ M ≤ i) := by
        intro hc
        rcases hc with hc | hc
        · exact hf hc
        · exact hi hc
      have hmi : M - i = (M - (i + 1)) + 1 := by omega
      simp only [deleteLoop, if_neg hcond, ih (i + 1) hfs, hmi,
        List.drop_succ_cons]

/-- The deletion loop deletes exactly the files that are older than
the cutoff or sit at an absolute index of at least `maxFiles`, in list
order (the loop body's two `shouldDelete` criteria). -/
theorem deleteLoop_eq_enum (M : Nat) (cutoff : Int) :
    ∀ (l : List LogFileInfo) (i : Nat),
      deleteLoop M cutoff i l =
        ((l.enumFrom i).filter
          (fun p => decide (p.2.modTime < cutoff) || decide (M ≤ p.1))).map
          Prod.snd := by
  intro l
  induction l with
  | nil => intro i; rfl
  | cons f fs ih =>
    intro i
    by_cases h : f.modTime < cutoff ∨ M ≤ i
    · have hc : (decide (f.modTime < cutoff) || decide (M ≤ i)) = true := by
        rcases h with h | h <;> simp [h]
      simp only [deleteLoop, if_pos h, List.enumFrom, List.filter_cons, hc,
        if_true, List.map_cons, ih (i + 1)]
    · have hc : (decide (f.modTime < cutoff) || decide (M ≤ i)) = false := by
        rcases not_or.mp h with ⟨h1, h2⟩
        simp [h1, h2]
      simp only [deleteLoop, if_neg h, List.enumFrom, List.filter_cons, hc,
        Bool.false_eq_true, if_false, ih (i + 1)]

/-- Every file older than the cutoff is deleted by the loop. -/
theorem deleteLoop_mem_of_old (M : Nat) (cutoff : Int) :
    ∀ (l : List LogFileInfo) (i : Nat) (f : LogFileInfo),
      f ∈ l → f.modTime < cutoff → f ∈ deleteLoop M cutoff i l := by
  intro l
  induction l with
  | nil => intro i f hf _; cases hf
  | cons g gs ih =>
    intro i f hf hold
    rcases List.mem_cons.mp hf with hf | hf
    · subst hf
      simp only [deleteLoop, if_pos (Or.inl hold)]
      exact List.mem_cons_self _ _
    · by_cases h : g.modTime < cutoff ∨ M ≤ i
      · simp only [deleteLoop, if_pos h]
        exact List.mem_cons_of_mem _ (ih (i + 1) f hf hold)
      · simp only [deleteLoop, if_neg h]
        exact ih (i + 1) f hf hold

/-- The loop deletes only files of the list it walks. -/
theorem deleteLoop_subset (M : Nat) (cutoff : Int) :
    ∀ (l : List LogFileInfo) (i : Nat), deleteLoop M cutoff i l ⊆ l := by
  intro l
  induction l with
  | nil => intro i; simp [deleteLoop]
  | cons g gs ih =>
    intro i
    by_cases h : g.modTime < cutoff ∨ M ≤ i
    · simp only [deleteLoop, if_pos h]
      exact List.cons_subset_cons g (ih (i + 1))
    · simp only [deleteLoop, if_neg h]
      exact (ih (i + 1)).trans (List.subset_cons_self g gs)

/-- Every file beyond the first `maxFiles - i` positions is deleted by
the loop started at index `i` (the count criterion alone suffices). -/
theorem deleteLoop_drop_subset (M : Nat) (cutoff : Int) :
    ∀ (l : List LogFileInfo) (i : Nat),
      l.drop (M - i) ⊆ deleteLoop M cutoff i l := by
  intro l
  induction l with
  | nil => intro i; simp [deleteLoop]
  | cons g gs ih =>
    intro i
    by_cases hi : M ≤ i
    · have h0 : M - i = 0 := by omega
      have h1 : M - (i + 1) = 0 := by omega
      rw [h0, List.drop_zero]
      simp only [deleteLoop, if_pos (Or.inr hi)]
      apply List.cons_subset_cons
      have := ih (i + 1)
      rw [h1, List.drop_zero] at this
      exact this
    · have hmi : M - i = (M - (i + 1)) + 1 := by omega
      rw [hmi, List.drop_succ_cons]
      by_cases h : g.modTime < cutoff ∨ M ≤ i
      · simp only [deleteLoop, if_pos h]
        exact (ih (i + 1)).trans (List.subset_cons_self _ _)
      · simp only [deleteLoop, if_neg h]
        exact ih (i + 1)

/-- Every rotated candidate's path differs from the active path. -/
theorem rotatedCandidates_ne_active (lr : LogRotator)
    (dirFiles : List LogFileInfo) :
    ∀ f ∈ rotatedCandidates lr dirFiles, f.path ≠ lr.logFilePath := by
  intro f hf
  have := List.of_mem_filter hf
  simpa using this

/-- The sorted candidate list is a permutation of the candidates. -/
theorem sortByModTimeDesc_perm (l : List LogFileInfo) :
    List.Perm (sortByModTimeDesc l) l :=
  List.perm_insertionSort newerEq l

/-- The sorted candidate list is sorted newest-first. -/
theorem sortByModTimeDesc_sorted (l : List LogFileInfo) :
    List.Sorted newerEq (sortByModTimeDesc l) :=
  List.sorted_insertionSort newerEq l

/-- C2: `cleanupOldLogs` enumerates the glob matches, excludes the
active path, sorts newest-first, and deletes exactly those files that
are older than `now - maxAge` or at sorted index at least `maxFiles`,
in that order: (1) the deleted list is exactly the newest-first list
filtered by those two criteria; (2) every candidate older than the
cutoff is deleted; (3) every candidate at sorted index at least
`maxFiles` is deleted; (4) only rotated candidates are deleted, never
the active file; (5) starting from `maxFiles + 3` candidates with
distinct timestamps none older than the cutoff, exactly the 3 files
beyond index `maxFiles` are deleted, leaving the `maxFiles` newest
files, each strictly newer than every deleted one. -/
theorem cleanup_retention (lr : LogRotator) (now : Int)
    (dirFiles : List LogFileInfo) :
    cleanupDeleted lr now dirFiles =
      (((sortByModTimeDesc (rotatedCandidates lr dirFiles)).enum.filter
        (fun p => decide (p.2.modTime < now - lr.maxAge)
          || decide (lr.maxFiles ≤ p.1))).map Prod.snd) ∧
    (∀ f ∈ rotatedCandidates lr dirFiles, f.modTime < now - lr.maxAge →
      f ∈ cleanupDeleted lr now dirFiles) ∧
    (∀ i (hi : i < (sortByModTimeDesc (rotatedCandidates lr dirFiles)).length),
      lr.maxFiles ≤ i →
      (sortByModTimeDesc (rotatedCandidates lr dirFiles)).get ⟨i, hi⟩
        ∈ cleanupDeleted lr now dirFiles) ∧
    (∀ g ∈ cleanupDeleted lr now dirFiles,
      g ∈ rotatedCandidates lr dirFiles ∧ g.path ≠ lr.logFilePath) ∧
    ((rotatedCandidates lr dirFiles).Pairwise
        (fun a b => a.modTime ≠ b.modTime) →
     (∀ f ∈ rotatedCandidates lr dirFiles, ¬ f.modTime < now - lr.maxAge) →
     (rotatedCandidates lr dirFiles).length = lr.maxFiles + 3 →
     cleanupDeleted lr now dirFiles =
       (sortByModTimeDesc (rotatedCandidates lr dirFiles)).drop lr.maxFiles ∧
     (cleanupDeleted lr now dirFiles).length = 3 ∧
     List.Perm
       ((sortByModTimeDesc (rotatedCandidates lr dirFiles)).take lr.maxFiles
         ++ cleanupDeleted lr now dirFiles)
       (rotatedCandidates lr dirFiles) ∧
     ((sortByModTimeDesc (rotatedCandidates lr dirFiles)).take lr.maxFiles).length
       = lr.maxFiles ∧
     (∀ f ∈ (sortByModTimeDesc (rotatedCandidates lr dirFiles)).take lr.maxFiles,
       ∀ g ∈ cleanupDeleted lr now dirFiles, g.modTime < f.modTime)) := by
  have hperm := sortByModTimeDesc_perm (rotatedCandidates lr dirFiles)
  refine ⟨?_, ?_, ?_, ?_, ?_⟩
  · unfold cleanupDeleted
    rw [deleteLoop_eq_enum]
    rfl
  · intro f hf hold
    unfold cleanupDeleted
    exact deleteLoop_mem_of_old _ _ _ 0 f (hperm.mem_iff.mpr hf) hold
  · intro i hi hMi
    unfold cleanupDeleted
    apply deleteLoop_drop_subset lr.maxFiles (now - lr.maxAge) _ 0
    rw [Nat.sub_zero]
    have hlt : i - lr.maxFiles <
        ((sortByModTimeDesc (rotatedCandidates lr dirFiles)).drop
          lr.maxFiles).length := by
      rw [List.length_drop]
      omega
    have hidx : lr.maxFiles + (i - lr.maxFiles) = i := by omega
    have hget : ((sortByModTimeDesc (rotatedCandidates lr dirFiles)).drop
          lr.maxFiles).get ⟨i - lr.maxFiles, hlt⟩
        = (sortByModTimeDesc (rotatedCandidates lr dirFiles)).get ⟨i, hi⟩ := by
      simp only [List.get_eq_getElem, List.getElem_drop, hidx]
    rw [← hget]
    exact List.get_mem _ _ _
  · intro g hg
    unfold cleanupDeleted at hg
    have hgS := deleteLoop_subset _ _ _ 0 hg
    have hgR := hperm.mem_iff.mp hgS
    exact ⟨hgR, rotatedCandidates_ne_active lr dirFiles g hgR⟩
  · intro hdist hfresh hlen
    have hlenS : (sortByModTimeDesc (rotatedCandidates lr dirFiles)).length
        = lr.maxFiles + 3 := hperm.length_eq.trans hlen
    have hfreshS : ∀ f ∈ sortByModTimeDesc (rotatedCandidates lr dirFiles),
        ¬ f.modTime < now - lr.maxAge :=
      fun f hf => hfresh f (hperm.mem_iff.mp hf)
    have hdel : cleanupDeleted lr now dirFiles =
        (sortByModTimeDesc (rotatedCandidates lr dirFiles)).drop lr.maxFiles := by
      unfold cleanupDeleted
      rw [deleteLoop_no_old lr.maxFiles (now - lr.maxAge) _ 0 hfreshS,
        Nat.sub_zero]
    refine ⟨hdel, ?_, ?_, ?_, ?_⟩
    · rw [hdel, List.length_drop, hlenS]
      omega
    · rw [hdel, List.take_append_drop]
      exact hperm
    · rw [List.length_take, hlenS]
      omega
    · intro f hf g hg
      rw [hdel] at hg
      have hsorted : (sortByModTimeDesc (rotatedCandidates lr dirFiles)).Pairwise
          newerEq :=
        sortByModTimeDesc_sorted (rotatedCandidates lr dirFiles)
      have hne : (sortByModTimeDesc (rotatedCandidates lr dirFiles)).Pairwise
          (fun a b => a.modTime ≠ b.modTime) :=
        (hperm.pairwise_iff (fun h => Ne.symm h)).mpr hdist
      have hstrict : (sortByModTimeDesc (rotatedCandidates lr dirFiles)).Pairwise
          (fun a b => b.modTime < a.modTime) := by
        refine (hsorted.and hne).imp ?_
        intro a b hab
        exact lt_of_le_of_ne hab.1 (Ne.symm hab.2)
      have hsplit := List.take_append_drop lr.maxFiles
        (sortByModTimeDesc (rotatedCandidates lr dirFiles))
      rw [← hsplit] at hstrict
      exact (List.pairwise_append.mp hstrict).2.2 f hf g hg

/-- C2 witness: `maxFiles = 2`, five rotated files with distinct
timestamps 901–905; at `now = 1000` (cutoff 900) exactly the 3 oldest
are deleted and the active file survives; at `now = 1050`
(cutoff 950) the file with timestamp 903 is deleted because it is
older than the cutoff. -/
theorem cleanup_retention_witness :
    cleanupDeleted retentionRotW 1000 retentionFilesW =
      (sortByModTimeDesc (rotatedCandidates retentionRotW retentionFilesW)).drop retentionRotW.maxFiles ∧
    (cleanupDeleted retentionRotW 1000 retentionFilesW).length = 3 ∧
    (∀ g ∈ cleanupDeleted retentionRotW 1000 retentionFilesW,
      g.path ≠ retentionRotW.logFilePath) ∧
    List.Perm
      ((sortByModTimeDesc (rotatedCandidates retentionRotW retentionFilesW)).take retentionRotW.maxFiles
        ++ cleanupDeleted retentionRotW 1000 retentionFilesW)
      (rotatedCandidates retentionRotW retentionFilesW) ∧
    ((sortByModTimeDesc (rotatedCandidates retentionRotW retentionFilesW)).take retentionRotW.maxFiles).length
      = retentionRotW.maxFiles ∧
    (∀ f ∈ (sortByModTimeDesc (rotatedCandidates retentionRotW retentionFilesW)).take retentionRotW.maxFiles,
      ∀ g ∈ cleanupDeleted retentionRotW 1000 retentionFilesW,
        g.modTime < f.modTime) ∧
    (⟨"logs/app.log.3", 905, 1⟩ : LogFileInfo)
      ∈ cleanupDeleted retentionRotW 1050 retentionFilesW := by
  have h := cleanup_retention retentionRotW 1000 retentionFilesW
  have hs := h.2.2.2.2 (by decide) (by decide) (by decide)
  have hage := (cleanup_retention retentionRotW 1050 retentionFilesW).2.1
    ⟨"logs/app.log.3", 905, 1⟩ (by decide) (by decide)
  exact ⟨hs.1, hs.2.1, fun g hg => (h.2.2.2.1 g hg).2, hs.2.2.1, hs.2.2.2.1,
    hs.2.2.2.2, hage⟩

end StockSpotlight
